import Mathlib

/-!
# Xenia kernel file objects and host clock: byte-exact record encoding

A shallow embedding of

* `src/xenia/kernel/objects/xfile.h`: `XFileInfo::Write`, `XDirectoryInfo::Write`,
  `XFile::position` / `XFile::set_position`, the declaration of `XFile::Read`;
* `src/xenia/base/clock_posix.cc`: `Clock::host_tick_frequency`,
  `Clock::QueryHostTickCount`, `Clock::QueryHostUptimeMillis`.

Guest memory is a total map from byte index (relative to the pointer `base`) to a
byte.  Unsigned machine integers are natural numbers; a `uintN_t` conversion is an
explicit `% 2 ^ N`.
-/

namespace xe

/-! ## Memory and the byte-order helpers -/

/-- Memory as seen through `uint8_t* base`: index `i` is the byte `base[i]`. -/
abbrev Mem := Nat → Nat

/-- Byte number `k` (0 is the most significant) of the `w`-byte big-endian image of `v`. -/
def beByte (w v k : Nat) : Nat := (v / 256 ^ (w - 1 - k)) % 256

/-- Modelled from the spec: the macro `XESETUINT32BE(p, v)` is used by `xfile.h` but is
not defined under `src/`.  Per the layout section ("all integers big-endian") it stores
the 32-bit value `v` at `p`, most significant byte first, in 4 bytes. -/
def XESETUINT32BE (m : Mem) (a v : Nat) : Mem :=
  fun i => if a ≤ i ∧ i < a + 4 then beByte 4 v (i - a) else m i

/-- Modelled from the spec: the macro `XESETUINT64BE(p, v)` is used by `xfile.h` but is
not defined under `src/`.  Per the layout section ("all integers big-endian") it stores
the 64-bit value `v` at `p`, most significant byte first, in 8 bytes. -/
def XESETUINT64BE (m : Mem) (a v : Nat) : Mem :=
  fun i => if a ≤ i ∧ i < a + 8 then beByte 8 v (i - a) else m i

/-- Modelled from the spec: `xe_copy_memory(dest, dest_length, source, source_length)` is
called by `xfile.h` but is not defined under `src/`.  It copies the source bytes to
`dest` unchanged, never more than `dest_length` of them ("file_name(variable, no
terminator, no padding)").  `source` is the byte sequence starting at the source pointer. -/
def xe_copy_memory (m : Mem) (dest dest_length : Nat) (source : Nat → Nat)
    (source_length : Nat) : Mem :=
  fun i => if dest ≤ i ∧ i < dest + min dest_length source_length then source (i - dest) else m i

/-- Reference big-endian reader, 4 bytes at `a`. -/
def rdBE32 (m : Mem) (a : Nat) : Nat :=
  m a * 2 ^ 24 + m (a + 1) * 2 ^ 16 + m (a + 2) * 2 ^ 8 + m (a + 3)

/-- Reference big-endian reader, 8 bytes at `a`. -/
def rdBE64 (m : Mem) (a : Nat) : Nat :=
  m a * 2 ^ 56 + m (a + 1) * 2 ^ 48 + m (a + 2) * 2 ^ 40 + m (a + 3) * 2 ^ 32
    + m (a + 4) * 2 ^ 24 + m (a + 5) * 2 ^ 16 + m (a + 6) * 2 ^ 8 + m (a + 7)

/-! ## `XFileInfo` -/

/-- The class `XFileInfo` (FILE_NETWORK_OPEN_INFORMATION): six `uint64_t` fields and the
32-bit `X_FILE_ATTRIBUTES`. -/
structure XFileInfo where
  creation_time : Nat
  last_access_time : Nat
  last_write_time : Nat
  change_time : Nat
  allocation_size : Nat
  file_length : Nat
  attributes : Nat
  deriving Repr, DecidableEq

/-- The values a C++ `XFileInfo` object can hold: every field within its machine width. -/
def XFileInfo.InRange (x : XFileInfo) : Prop :=
  x.creation_time < 2 ^ 64 ∧ x.last_access_time < 2 ^ 64 ∧ x.last_write_time < 2 ^ 64 ∧
  x.change_time < 2 ^ 64 ∧ x.allocation_size < 2 ^ 64 ∧ x.file_length < 2 ^ 64 ∧
  x.attributes < 2 ^ 32

instance (x : XFileInfo) : Decidable x.InRange := by
  unfold XFileInfo.InRange; infer_instance

/-- The method `XFileInfo::Write(uint8_t* base, uint32_t p)`: the eight stores in source
order.  The addresses `base + p + 8`, ... are pointer sums, so they do not wrap at 32 bits. -/
def XFileInfo.Write (x : XFileInfo) (base : Mem) (p : Nat) : Mem :=
  let m := XESETUINT64BE base (p) x.creation_time
  let m := XESETUINT64BE m (p + 8) x.last_access_time
  let m := XESETUINT64BE m (p + 16) x.last_write_time
  let m := XESETUINT64BE m (p + 24) x.change_time
  let m := XESETUINT64BE m (p + 32) x.allocation_size
  let m := XESETUINT64BE m (p + 40) x.file_length
  let m := XESETUINT32BE m (p + 48) x.attributes
  XESETUINT32BE m (p + 52) 0

/-! ## `XDirectoryInfo` -/

/-- The class `XDirectoryInfo` (FILE_DIRECTORY_INFORMATION) as the host reads it through an
`XDirectoryInfo*`: the ten header fields and the bytes of the trailing `file_name`
array (`file_name i` is `info->file_name[i]`, the byte at offset `64 + i` of the object). -/
structure XDirectoryInfo where
  next_entry_offset : Nat
  file_index : Nat
  creation_time : Nat
  last_access_time : Nat
  last_write_time : Nat
  change_time : Nat
  end_of_file : Nat
  allocation_size : Nat
  attributes : Nat
  file_name_length : Nat
  file_name : Nat → Nat

/-- The values a C++ `XDirectoryInfo` header can hold: every field within its machine width. -/
def XDirectoryInfo.InRange (x : XDirectoryInfo) : Prop :=
  x.next_entry_offset < 2 ^ 32 ∧ x.file_index < 2 ^ 32 ∧ x.creation_time < 2 ^ 64 ∧
  x.last_access_time < 2 ^ 64 ∧ x.last_write_time < 2 ^ 64 ∧ x.change_time < 2 ^ 64 ∧
  x.end_of_file < 2 ^ 64 ∧ x.allocation_size < 2 ^ 64 ∧ x.attributes < 2 ^ 32 ∧
  x.file_name_length < 2 ^ 32

instance (x : XDirectoryInfo) : Decidable x.InRange := by
  unfold XDirectoryInfo.InRange; infer_instance

/-- Host memory holding the source chain, as read through `(XDirectoryInfo*)src`:
`view s` is the object found `s` bytes after `this` (`view 0` is `*this`).  The source
is read-only during `Write` and does not overlap the destination. -/
abbrev SrcView := Nat → XDirectoryInfo

/-- One pass through the body of the `do` loop of `XDirectoryInfo::Write`, up to and
including `xe_copy_memory`: the ten header stores and the name copy, in source order. -/
def XDirectoryInfo.encode (info : XDirectoryInfo) (m : Mem) (dst : Nat) : Mem :=
  let m := XESETUINT32BE m dst info.next_entry_offset
  let m := XESETUINT32BE m (dst + 4) info.file_index
  let m := XESETUINT64BE m (dst + 8) info.creation_time
  let m := XESETUINT64BE m (dst + 16) info.last_access_time
  let m := XESETUINT64BE m (dst + 24) info.last_write_time
  let m := XESETUINT64BE m (dst + 32) info.change_time
  let m := XESETUINT64BE m (dst + 40) info.end_of_file
  let m := XESETUINT64BE m (dst + 48) info.allocation_size
  let m := XESETUINT32BE m (dst + 56) info.attributes
  let m := XESETUINT32BE m (dst + 60) info.file_name_length
  xe_copy_memory m (dst + 64) info.file_name_length info.file_name info.file_name_length

/-- The `do { ... } while (info->next_entry_offset != 0)` loop of `XDirectoryInfo::Write`
with the loop state `(memory, dst, src)`.  The loop has no bound of its own; `fuel`
counts the passes allowed, and `none` means the fuel ran out before the loop exited. -/
def XDirectoryInfo.WriteLoop (view : SrcView) : Nat → Mem → Nat → Nat → Option Mem
  | 0, _, _, _ => none
  | fuel + 1, m, dst, src =>
    let info := view src
    let m := info.encode m dst
    if info.next_entry_offset ≠ 0 then
      XDirectoryInfo.WriteLoop view fuel m (dst + info.next_entry_offset)
        (src + info.next_entry_offset)
    else some m

/-- The method `XDirectoryInfo::Write(uint8_t* base, uint32_t p)`: `dst = base + p`,
`src = this`, then the loop. -/
def XDirectoryInfo.Write (view : SrcView) (fuel : Nat) (base : Mem) (p : Nat) : Option Mem :=
  XDirectoryInfo.WriteLoop view fuel base p 0

/-- Offset from `this` of entry `k` of the source chain: the sum of the
`next_entry_offset` values of entries `0 .. k-1`. -/
def XDirectoryInfo.start (view : SrcView) : Nat → Nat
  | 0 => 0
  | k + 1 => XDirectoryInfo.start view k + (view (XDirectoryInfo.start view k)).next_entry_offset

/-- Entry `k` of the source chain. -/
def XDirectoryInfo.entry (view : SrcView) (k : Nat) : XDirectoryInfo :=
  view (XDirectoryInfo.start view k)

/-- The destination after the first `k` entries of the chain have been encoded at `p`. -/
def XDirectoryInfo.encoded (view : SrcView) (m : Mem) (p : Nat) : Nat → Mem
  | 0 => m
  | k + 1 => (XDirectoryInfo.entry view k).encode (XDirectoryInfo.encoded view m p k)
      (p + XDirectoryInfo.start view k)

/-- The source chain has exactly `n + 1` entries: entries `0 .. n-1` have a non-zero
`next_entry_offset` and entry `n` is the first with `next_entry_offset = 0`. -/
def XDirectoryInfo.EndsAt (view : SrcView) (n : Nat) : Prop :=
  (∀ k, k < n → (XDirectoryInfo.entry view k).next_entry_offset ≠ 0) ∧
  (XDirectoryInfo.entry view n).next_entry_offset = 0

/-- Well-formed chain: each non-last entry leaves room for its own header and name. -/
def XDirectoryInfo.WellFormed (view : SrcView) (n : Nat) : Prop :=
  (∀ k, k < n → 64 + (XDirectoryInfo.entry view k).file_name_length
      ≤ (XDirectoryInfo.entry view k).next_entry_offset) ∧
  (XDirectoryInfo.entry view n).next_entry_offset = 0

/-- Address `a` lies in the bytes `[start_k, start_k + 64 + file_name_length_k)` of one of
the first `cnt` encoded entries. -/
def XDirectoryInfo.Covered (view : SrcView) (p cnt a : Nat) : Prop :=
  ∃ k, k < cnt ∧ p + XDirectoryInfo.start view k ≤ a ∧
    a < p + XDirectoryInfo.start view k + 64 + (XDirectoryInfo.entry view k).file_name_length

/-- A directory entry as a guest-side reader decodes it. -/
structure DirEntry where
  next_entry_offset : Nat
  file_index : Nat
  creation_time : Nat
  last_access_time : Nat
  last_write_time : Nat
  change_time : Nat
  end_of_file : Nat
  allocation_size : Nat
  attributes : Nat
  file_name_length : Nat
  file_name : List Nat
  deriving Repr, DecidableEq

/-- The content of a source entry: its header and its `file_name_length` name bytes. -/
def XDirectoryInfo.toEntry (x : XDirectoryInfo) : DirEntry :=
  { next_entry_offset := x.next_entry_offset
    file_index := x.file_index
    creation_time := x.creation_time
    last_access_time := x.last_access_time
    last_write_time := x.last_write_time
    change_time := x.change_time
    end_of_file := x.end_of_file
    allocation_size := x.allocation_size
    attributes := x.attributes
    file_name_length := x.file_name_length
    file_name := (List.range x.file_name_length).map x.file_name }

/-- Reference reader for one record at `a`: big-endian header, then the name bytes. -/
def readEntry (m : Mem) (a : Nat) : DirEntry :=
  { next_entry_offset := rdBE32 m a
    file_index := rdBE32 m (a + 4)
    creation_time := rdBE64 m (a + 8)
    last_access_time := rdBE64 m (a + 16)
    last_write_time := rdBE64 m (a + 24)
    change_time := rdBE64 m (a + 32)
    end_of_file := rdBE64 m (a + 40)
    allocation_size := rdBE64 m (a + 48)
    attributes := rdBE32 m (a + 56)
    file_name_length := rdBE32 m (a + 60)
    file_name := (List.range (rdBE32 m (a + 60))).map (fun i => m (a + 64 + i)) }

/-- Reference reader for a chain: decode at `a`, stop on `next_entry_offset = 0`,
otherwise move on by `next_entry_offset`. -/
def readChain (m : Mem) : Nat → Nat → Option (List DirEntry)
  | 0, _ => none
  | fuel + 1, a =>
    let e := readEntry m a
    if e.next_entry_offset = 0 then some [e]
    else (readChain m fuel (a + e.next_entry_offset)).map (fun es => e :: es)

/-- The reading "the offsets strictly increase and end in exactly one 0" of a list of
read-back `next_entry_offset` values: the last is 0, the ones before it are non-zero
and strictly increasing. -/
def OffsetsIncreaseThenZero (l : List Nat) : Prop :=
  l.getLast? = some 0 ∧ (∀ x ∈ l.dropLast, x ≠ 0) ∧ l.dropLast.Pairwise (fun x y => x < y)

instance (l : List Nat) : Decidable (OffsetsIncreaseThenZero l) := by
  unfold OffsetsIncreaseThenZero; infer_instance

/-! ## `XFile` -/

/-- The private state of `XFile`; `xobject` stands for the state of the base class
`XObject`, which `xfile.h` only includes. -/
structure XFile (β : Type) where
  xobject : β
  desired_access_ : Nat
  async_event_ : Nat
  position_ : Nat

/-- The accessor `size_t position() const`. -/
def XFile.position {β : Type} (f : XFile β) : Nat := f.position_

/-- The mutator `void set_position(size_t value)`. -/
def XFile.set_position {β : Type} (f : XFile β) (value : Nat) : XFile β :=
  { f with position_ := value }

/-- The live handles, by identity. -/
abbrev Handles (β : Type) := Nat → XFile β

/-- A call of `set_position(value)` on the handle `h`: only that object is assigned. -/
def Handles.set_position {β : Type} (hs : Handles β) (h value : Nat) : Handles β :=
  fun i => if i = h then (hs i).set_position value else hs i

/-- Outcome of a synchronous read other than success. -/
inductive ReadError where
  | AccessDenied
  | InvalidOffset
  | HardwareOrHostIOFailure
  deriving Repr, DecidableEq

/-- Modelled from the spec: `XFile::Read(buffer, buffer_length, byte_offset,
out_bytes_read)` is only declared in `xfile.h`; its body and every `ReadSync` provider
are missing from `src/`.  Following the component design: read access is required
(else AccessDenied); `byte_offset` past the file length fails with InvalidOffset; the
length is clamped to what is available, and end-of-file is a success with 0 bytes; a
failing transfer is HardwareOrHostIOFailure.  `grants_read` says which access masks give
read access, `file` is the content the provider reports, `transfer_ok` whether the host
transfer succeeds.  The result is the bytes placed in `buffer`; `out_bytes_read` is
their number. -/
def XFile.Read {β : Type} (f : XFile β) (grants_read : Nat → Bool) (file : List Nat)
    (transfer_ok : Bool) (buffer_length byte_offset : Nat) : Except ReadError (List Nat) :=
  if grants_read f.desired_access_ = false then .error .AccessDenied
  else if byte_offset > file.length then .error .InvalidOffset
  else if min buffer_length (file.length - byte_offset) = 0 then .ok []
  else if transfer_ok = false then .error .HardwareOrHostIOFailure
  else .ok ((file.drop byte_offset).take buffer_length)

/-! ## `Clock` (POSIX) -/

/-- The C `struct timespec`; both members are signed. -/
structure timespec where
  tv_sec : Int
  tv_nsec : Int
  deriving Repr, DecidableEq

/-- The conversion `uint64_t(x)` of a signed value. -/
def toUInt64 (x : Int) : Nat := (x % 2 ^ 64).toNat

/-- The function `Clock::host_tick_frequency()`; `res` is what `clock_getres` stored.  A
failing `assert` and a division by zero have no result. -/
def Clock.host_tick_frequency (res : timespec) : Option Nat :=
  if res.tv_sec ≠ 0 then none
  else if toUInt64 res.tv_nsec = 0 then none
  else some (1000000000 / toUInt64 res.tv_nsec)

/-- The function `Clock::QueryHostTickCount()`; `tr` is what `clock_gettime` stored. -/
def Clock.QueryHostTickCount (tr : timespec) : Nat :=
  (toUInt64 tr.tv_nsec + toUInt64 tr.tv_sec * 1000000000 % 2 ^ 64) % 2 ^ 64

/-- The function `Clock::QueryHostUptimeMillis()`: the 64-bit quotient converted to
`uint32_t`; a zero divisor has no result. -/
def Clock.QueryHostUptimeMillis (res tr : timespec) : Option Nat :=
  match Clock.host_tick_frequency res with
  | none => none
  | some freq =>
    if freq / 1000 = 0 then none
    else some (Clock.QueryHostTickCount tr / (freq / 1000) % 2 ^ 32)

/-! ## Contiguous images (used to state what a run of stores leaves in memory) -/

/-- Memory `m` with the `len` bytes `f 0 .. f (len-1)` placed at `a`. -/
def blit (m : Mem) (a len : Nat) (f : Nat → Nat) : Mem :=
  fun i => if a ≤ i ∧ i < a + len then f (i - a) else m i

/-- The byte sequence `f 0 .. f (l1-1)` followed by `g 0, g 1, ..`. -/
def cat (l1 : Nat) (f g : Nat → Nat) : Nat → Nat :=
  fun j => if j < l1 then f j else g (j - l1)

/-- The 56 bytes of an `XFileInfo`, field after field in store order. -/
def XFileInfo.image (x : XFileInfo) : Nat → Nat :=
  cat 52 (cat 48 (cat 40 (cat 32 (cat 24 (cat 16 (cat 8 (beByte 8 x.creation_time)
    (beByte 8 x.last_access_time)) (beByte 8 x.last_write_time)) (beByte 8 x.change_time))
    (beByte 8 x.allocation_size)) (beByte 8 x.file_length)) (beByte 4 x.attributes))
    (beByte 4 0)

/-- The `64 + file_name_length` bytes of a directory entry, field after field in store order. -/
def XDirectoryInfo.image (x : XDirectoryInfo) : Nat → Nat :=
  cat 64 (cat 60 (cat 56 (cat 48 (cat 40 (cat 32 (cat 24 (cat 16 (cat 8 (cat 4
    (beByte 4 x.next_entry_offset) (beByte 4 x.file_index)) (beByte 8 x.creation_time))
    (beByte 8 x.last_access_time)) (beByte 8 x.last_write_time)) (beByte 8 x.change_time))
    (beByte 8 x.end_of_file)) (beByte 8 x.allocation_size)) (beByte 4 x.attributes))
    (beByte 4 x.file_name_length)) x.file_name

/-! ## Concrete inputs -/

instance (view : SrcView) (n : Nat) : Decidable (XDirectoryInfo.EndsAt view n) := by
  unfold XDirectoryInfo.EndsAt; infer_instance

instance (view : SrcView) (n : Nat) : Decidable (XDirectoryInfo.WellFormed view n) := by
  unfold XDirectoryInfo.WellFormed; infer_instance

/-- A buffer of zero bytes. -/
def zeroMem : Mem := fun _ => 0

/-- A buffer of `0xEE` bytes. -/
def fillMem : Mem := fun _ => 238

/-- A file record with zeros and the largest values of both widths. -/
def sampleInfo : XFileInfo :=
  { creation_time := 18446744073709551615
    last_access_time := 0
    last_write_time := 72623859790382856
    change_time := 18446744073709551615
    allocation_size := 4096
    file_length := 18446744073709551615
    attributes := 4294967295 }

/-- First entry of the sample chain: name `ABCDE`, next entry 72 bytes on. -/
def sampleEntry0 : XDirectoryInfo :=
  { next_entry_offset := 72, file_index := 1, creation_time := 18446744073709551615,
    last_access_time := 3, last_write_time := 4, change_time := 5, end_of_file := 6,
    allocation_size := 7, attributes := 4294967295, file_name_length := 5,
    file_name := fun i => 65 + i }

/-- Second entry of the sample chain: name `abc`, next entry 68 bytes on. -/
def sampleEntry1 : XDirectoryInfo :=
  { next_entry_offset := 68, file_index := 2, creation_time := 0,
    last_access_time := 3, last_write_time := 4, change_time := 5, end_of_file := 6,
    allocation_size := 7, attributes := 16, file_name_length := 3,
    file_name := fun i => 97 + i }

/-- Last entry of the sample chain: name `01`, `next_entry_offset = 0`. -/
def sampleEntry2 : XDirectoryInfo :=
  { next_entry_offset := 0, file_index := 3, creation_time := 2,
    last_access_time := 3, last_write_time := 4, change_time := 5, end_of_file := 6,
    allocation_size := 7, attributes := 128, file_name_length := 2,
    file_name := fun i => 48 + i }

/-- Host memory holding the three sample entries at offsets 0, 72 and 140 from `this`;
every other offset reads as a zero header with `next_entry_offset = 1`. -/
def sampleView : SrcView := fun s =>
  if s = 0 then sampleEntry0
  else if s = 72 then sampleEntry1
  else if s = 140 then sampleEntry2
  else { next_entry_offset := 1, file_index := 0, creation_time := 0, last_access_time := 0,
         last_write_time := 0, change_time := 0, end_of_file := 0, allocation_size := 0,
         attributes := 0, file_name_length := 0, file_name := fun _ => 0 }

/-- First entry of a chain that is not well formed: `file_name_length = 5` but
`next_entry_offset = 64`, so its name bytes at `this + 64 .. this + 68` are the first
five bytes of the next header.  With the last sample entry stored there by a
little-endian host (`next_entry_offset = 0` gives 00 00 00 00, `file_index = 3` gives
03 00 00 00) the name reads 0, 0, 0, 0, 3. -/
def overlapEntry0 : XDirectoryInfo :=
  { next_entry_offset := 64, file_index := 1, creation_time := 2,
    last_access_time := 3, last_write_time := 4, change_time := 5, end_of_file := 6,
    allocation_size := 7, attributes := 16, file_name_length := 5,
    file_name := fun i => if i = 4 then 3 else 0 }

/-- Host memory holding `overlapEntry0` at `this` and the last sample entry 64 bytes on;
every other offset reads as a zero header with `next_entry_offset = 1`. -/
def overlapView : SrcView := fun s =>
  if s = 0 then overlapEntry0
  else if s = 64 then sampleEntry2
  else { next_entry_offset := 1, file_index := 0, creation_time := 0, last_access_time := 0,
         last_write_time := 0, change_time := 0, end_of_file := 0, allocation_size := 0,
         attributes := 0, file_name_length := 0, file_name := fun _ => 0 }

/-- A handle opened with access mask 1, position 7. -/
def sampleFile : XFile Unit :=
  { xobject := (), desired_access_ := 1, async_event_ := 0, position_ := 7 }

/-- Two live handles: handle 0 at position 7, every other handle at position 100. -/
def sampleHandles : Handles Unit := fun i =>
  if i = 0 then sampleFile else { sampleFile with position_ := 100 }

/-- The ten bytes `0 .. 9` of a sample file. -/
def sampleBytes : List Nat := [0, 1, 2, 3, 4, 5, 6, 7, 8, 9]

/-- Host memory holding one entry, the last of the sample, at `this`. -/
def singleView : SrcView := fun _ => sampleEntry2

/-! ## Byte-level lemmas -/

/-- Reading four big-endian bytes of `v` gives `v` reduced to 32 bits. -/
theorem be32_sum (v : Nat) :
    beByte 4 v 0 * 2 ^ 24 + beByte 4 v 1 * 2 ^ 16 + beByte 4 v 2 * 2 ^ 8 + beByte 4 v 3
      = v % 2 ^ 32 := by
  simp only [beByte]
  norm_num
  omega

/-- Reading eight big-endian bytes of `v` gives `v` reduced to 64 bits. -/
theorem be64_sum (v : Nat) :
    beByte 8 v 0 * 2 ^ 56 + beByte 8 v 1 * 2 ^ 48 + beByte 8 v 2 * 2 ^ 40
      + beByte 8 v 3 * 2 ^ 32 + beByte 8 v 4 * 2 ^ 24 + beByte 8 v 5 * 2 ^ 16
      + beByte 8 v 6 * 2 ^ 8 + beByte 8 v 7 = v % 2 ^ 64 := by
  simp only [beByte]
  norm_num
  omega


theorem beByte_zero (w k : Nat) : beByte w 0 k = 0 := by
  simp [beByte]

/-! ## Placing byte runs -/

theorem blit_at (m : Mem) (a len : Nat) (f : Nat → Nat) (k : Nat) (hk : k < len) :
    blit m a len f (a + k) = f k := by
  simp [blit, hk]

theorem blit_out (m : Mem) (a len : Nat) (f : Nat → Nat) (i : Nat)
    (h : i < a ∨ a + len ≤ i) : blit m a len f i = m i := by
  unfold blit
  rw [if_neg]
  omega

theorem blit_in (m : Mem) (a len : Nat) (f : Nat → Nat) (i : Nat)
    (h1 : a ≤ i) (h2 : i < a + len) : blit m a len f i = f (i - a) := by
  unfold blit
  rw [if_pos ⟨h1, h2⟩]

/-- Two adjacent runs are one run. -/
theorem blit_blit (m : Mem) (a b l1 l2 l : Nat) (f g : Nat → Nat) (hb : b = a + l1)
    (hl : l = l1 + l2) : blit (blit m a l1 f) b l2 g = blit m a l (cat l1 f g) := by
  subst hb hl
  funext i
  simp only [blit, cat]
  by_cases h1 : a + l1 ≤ i ∧ i < a + l1 + l2
  · rw [if_pos h1, if_pos (by omega), if_neg (by omega)]
    congr 1
    omega
  · rw [if_neg h1]
    by_cases h2 : a ≤ i ∧ i < a + l1
    · rw [if_pos h2, if_pos (by omega), if_pos (by omega)]
    · rw [if_neg h2, if_neg (by omega)]

theorem XESETUINT32BE_eq (m : Mem) (a v : Nat) :
    XESETUINT32BE m a v = blit m a 4 (beByte 4 v) := rfl

theorem XESETUINT64BE_eq (m : Mem) (a v : Nat) :
    XESETUINT64BE m a v = blit m a 8 (beByte 8 v) := rfl

theorem xe_copy_memory_eq (m : Mem) (a len : Nat) (f : Nat → Nat) :
    xe_copy_memory m a len f len = blit m a len f := by
  unfold xe_copy_memory blit
  rw [Nat.min_self]

/-- Four bytes holding the big-endian image of `v` read back as `v` reduced to 32 bits. -/
theorem rdBE32_field (m : Mem) (a v : Nat) (h : ∀ k, k < 4 → m (a + k) = beByte 4 v k) :
    rdBE32 m a = v % 2 ^ 32 := by
  have h0 := h 0 (by omega)
  rw [Nat.add_zero] at h0
  unfold rdBE32
  rw [h0, h 1 (by omega), h 2 (by omega), h 3 (by omega)]
  exact be32_sum v

/-- Eight bytes holding the big-endian image of `v` read back as `v` reduced to 64 bits. -/
theorem rdBE64_field (m : Mem) (a v : Nat) (h : ∀ k, k < 8 → m (a + k) = beByte 8 v k) :
    rdBE64 m a = v % 2 ^ 64 := by
  have h0 := h 0 (by omega)
  rw [Nat.add_zero] at h0
  unfold rdBE64
  rw [h0, h 1 (by omega), h 2 (by omega), h 3 (by omega), h 4 (by omega), h 5 (by omega),
    h 6 (by omega), h 7 (by omega)]
  exact be64_sum v

/-! ## Closed forms of the two encoders -/

/-- The eight stores of `XFileInfo::Write` place one 56-byte run at `p`. -/
theorem XFileInfo_Write_eq_blit (x : XFileInfo) (m : Mem) (p : Nat) :
    x.Write m p = blit m p 56 x.image := by
  simp only [XFileInfo.Write, XESETUINT32BE_eq, XESETUINT64BE_eq]
  rw [blit_blit m p (p + 8) 8 8 16 _ _ rfl rfl, blit_blit m p (p + 16) 16 8 24 _ _ rfl rfl,
    blit_blit m p (p + 24) 24 8 32 _ _ rfl rfl, blit_blit m p (p + 32) 32 8 40 _ _ rfl rfl,
    blit_blit m p (p + 40) 40 8 48 _ _ rfl rfl, blit_blit m p (p + 48) 48 4 52 _ _ rfl rfl,
    blit_blit m p (p + 52) 52 4 56 _ _ rfl rfl]
  rfl

/-- One loop pass of `XDirectoryInfo::Write` places one run of `64 + file_name_length`
bytes at `d`. -/
theorem XDirectoryInfo_encode_eq_blit (x : XDirectoryInfo) (m : Mem) (d : Nat) :
    x.encode m d = blit m d (64 + x.file_name_length) x.image := by
  simp only [XDirectoryInfo.encode, XESETUINT32BE_eq, XESETUINT64BE_eq, xe_copy_memory_eq]
  rw [blit_blit m d (d + 4) 4 4 8 _ _ rfl rfl, blit_blit m d (d + 8) 8 8 16 _ _ rfl rfl,
    blit_blit m d (d + 16) 16 8 24 _ _ rfl rfl, blit_blit m d (d + 24) 24 8 32 _ _ rfl rfl,
    blit_blit m d (d + 32) 32 8 40 _ _ rfl rfl, blit_blit m d (d + 40) 40 8 48 _ _ rfl rfl,
    blit_blit m d (d + 48) 48 8 56 _ _ rfl rfl, blit_blit m d (d + 56) 56 4 60 _ _ rfl rfl,
    blit_blit m d (d + 60) 60 4 64 _ _ rfl rfl,
    blit_blit m d (d + 64) 64 x.file_name_length (64 + x.file_name_length) _ _ rfl rfl]
  rfl

theorem cat_lt (l1 : Nat) (f g : Nat → Nat) (j : Nat) (h : j < l1) : cat l1 f g j = f j := by
  simp [cat, h]

theorem cat_ge (l1 : Nat) (f g : Nat → Nat) (j : Nat) (h : l1 ≤ j) :
    cat l1 f g j = g (j - l1) := by
  unfold cat
  rw [if_neg (by omega)]

/-- Where each field of an `XFileInfo` sits in its 56-byte image. -/
theorem XFileInfo_image_fields (x : XFileInfo) :
    (∀ k, k < 8 → x.image k = beByte 8 x.creation_time k) ∧
    (∀ k, k < 8 → x.image (8 + k) = beByte 8 x.last_access_time k) ∧
    (∀ k, k < 8 → x.image (16 + k) = beByte 8 x.last_write_time k) ∧
    (∀ k, k < 8 → x.image (24 + k) = beByte 8 x.change_time k) ∧
    (∀ k, k < 8 → x.image (32 + k) = beByte 8 x.allocation_size k) ∧
    (∀ k, k < 8 → x.image (40 + k) = beByte 8 x.file_length k) ∧
    (∀ k, k < 4 → x.image (48 + k) = beByte 4 x.attributes k) ∧
    (∀ k, k < 4 → x.image (52 + k) = 0) := by
  refine ⟨?_, ?_, ?_, ?_, ?_, ?_, ?_, ?_⟩ <;> intro k hk <;>
    simp (disch := omega) only [XFileInfo.image, cat_lt, cat_ge, Nat.add_sub_cancel_left,
      beByte_zero]

/-- Where each field of an `XDirectoryInfo` sits in its image. -/
theorem XDirectoryInfo_image_fields (x : XDirectoryInfo) :
    (∀ k, k < 4 → x.image k = beByte 4 x.next_entry_offset k) ∧
    (∀ k, k < 4 → x.image (4 + k) = beByte 4 x.file_index k) ∧
    (∀ k, k < 8 → x.image (8 + k) = beByte 8 x.creation_time k) ∧
    (∀ k, k < 8 → x.image (16 + k) = beByte 8 x.last_access_time k) ∧
    (∀ k, k < 8 → x.image (24 + k) = beByte 8 x.last_write_time k) ∧
    (∀ k, k < 8 → x.image (32 + k) = beByte 8 x.change_time k) ∧
    (∀ k, k < 8 → x.image (40 + k) = beByte 8 x.end_of_file k) ∧
    (∀ k, k < 8 → x.image (48 + k) = beByte 8 x.allocation_size k) ∧
    (∀ k, k < 4 → x.image (56 + k) = beByte 4 x.attributes k) ∧
    (∀ k, k < 4 → x.image (60 + k) = beByte 4 x.file_name_length k) ∧
    (∀ k, x.image (64 + k) = x.file_name k) := by
  refine ⟨?_, ?_, ?_, ?_, ?_, ?_, ?_, ?_, ?_, ?_, ?_⟩
  iterate 10
    intro k hk
    simp (disch := omega) only [XDirectoryInfo.image, cat_lt, cat_ge, Nat.add_sub_cancel_left]
  intro k
  simp (disch := omega) only [XDirectoryInfo.image, cat_ge, Nat.add_sub_cancel_left]

/-! ## The source chain and the loop of `XDirectoryInfo::Write` -/

theorem start_succ (view : SrcView) (k : Nat) :
    XDirectoryInfo.start view (k + 1)
      = XDirectoryInfo.start view k + (XDirectoryInfo.entry view k).next_entry_offset := rfl

theorem start_mono (view : SrcView) (j k : Nat) (h : j ≤ k) :
    XDirectoryInfo.start view j ≤ XDirectoryInfo.start view k := by
  induction k with
  | zero =>
    have hj : j = 0 := by omega
    subst hj
    exact Nat.le_refl _
  | succ k ih =>
    rcases Nat.lt_or_ge j (k + 1) with hlt | hge
    · have := ih (by omega)
      rw [start_succ]
      omega
    · have hj : j = k + 1 := by omega
      subst hj
      exact Nat.le_refl _

/-- In a well-formed chain the bytes of entry `j` end before any later entry starts. -/
theorem start_gap (view : SrcView) (n : Nat) (hwf : XDirectoryInfo.WellFormed view n)
    (j k : Nat) (hjk : j < k) (hkn : k ≤ n) :
    XDirectoryInfo.start view j + 64 + (XDirectoryInfo.entry view j).file_name_length
      ≤ XDirectoryInfo.start view k := by
  have h1 := hwf.1 j (by omega)
  have h2 := start_mono view (j + 1) k (by omega)
  rw [start_succ] at h2
  omega

/-- A well-formed chain ends at its last entry. -/
theorem WellFormed_EndsAt (view : SrcView) (n : Nat) (hwf : XDirectoryInfo.WellFormed view n) :
    XDirectoryInfo.EndsAt view n := by
  refine ⟨fun k hk => ?_, hwf.2⟩
  have := hwf.1 k hk
  omega

/-- Entries of a chain that ends at `n` start at strictly increasing offsets. -/
theorem start_lt (view : SrcView) (n : Nat) (hend : XDirectoryInfo.EndsAt view n)
    (j k : Nat) (hjk : j < k) (hkn : k ≤ n) :
    XDirectoryInfo.start view j < XDirectoryInfo.start view k := by
  have h1 := hend.1 j (by omega)
  have h2 := start_mono view (j + 1) k (by omega)
  rw [start_succ] at h2
  omega

/-- The loop, entered after `k` entries have been encoded, runs to the entry with
`next_entry_offset = 0` and returns the memory with the `n + 1` entries encoded. -/
theorem WriteLoop_run (view : SrcView) (m : Mem) (p n : Nat)
    (hend : XDirectoryInfo.EndsAt view n) (extra : Nat) :
    ∀ j k, k + j = n →
      XDirectoryInfo.WriteLoop view (j + 1 + extra) (XDirectoryInfo.encoded view m p k)
        (p + XDirectoryInfo.start view k) (XDirectoryInfo.start view k)
        = some (XDirectoryInfo.encoded view m p (n + 1)) := by
  intro j
  induction j with
  | zero =>
    intro k hk
    have hkn : k = n := by omega
    subst hkn
    have hz : (view (XDirectoryInfo.start view k)).next_entry_offset = 0 := hend.2
    rw [Nat.zero_add, Nat.add_comm 1 extra]
    simp only [XDirectoryInfo.WriteLoop, hz, ne_eq, not_true_eq_false, if_false]
    rfl
  | succ j ih =>
    intro k hk
    have hnz : (view (XDirectoryInfo.start view k)).next_entry_offset ≠ 0 := hend.1 k (by omega)
    have hfuel : j + 1 + 1 + extra = (j + 1 + extra) + 1 := by omega
    rw [hfuel]
    simp only [XDirectoryInfo.WriteLoop, ne_eq, hnz, not_false_eq_true, if_true]
    have := ih (k + 1) (by omega)
    rw [start_succ, ← Nat.add_assoc] at this
    exact this

/-- With too little fuel the loop has not yet reached the last entry. -/
theorem WriteLoop_short (view : SrcView) (m : Mem) (p n : Nat)
    (hend : XDirectoryInfo.EndsAt view n) :
    ∀ fuel k, k + fuel ≤ n →
      XDirectoryInfo.WriteLoop view fuel (XDirectoryInfo.encoded view m p k)
        (p + XDirectoryInfo.start view k) (XDirectoryInfo.start view k) = none := by
  intro fuel
  induction fuel with
  | zero =>
    intro k _
    rfl
  | succ fuel ih =>
    intro k hk
    have hnz : (view (XDirectoryInfo.start view k)).next_entry_offset ≠ 0 := hend.1 k (by omega)
    simp only [XDirectoryInfo.WriteLoop, ne_eq, hnz, not_false_eq_true, if_true]
    have := ih (k + 1) (by omega)
    rw [start_succ, ← Nat.add_assoc] at this
    exact this

/-- The method `XDirectoryInfo::Write` on a chain that ends at entry `n`: any fuel above `n` gives
the memory with exactly the entries `0 .. n` encoded. -/
theorem Write_eq_encoded (view : SrcView) (m : Mem) (p n fuel : Nat)
    (hend : XDirectoryInfo.EndsAt view n) (hfuel : n < fuel) :
    XDirectoryInfo.Write view fuel m p = some (XDirectoryInfo.encoded view m p (n + 1)) := by
  have h := WriteLoop_run view m p n hend (fuel - (n + 1)) n 0 (by omega)
  have hf : n + 1 + (fuel - (n + 1)) = fuel := by omega
  rw [hf] at h
  exact h

theorem encoded_succ (view : SrcView) (m : Mem) (p k : Nat) :
    XDirectoryInfo.encoded view m p (k + 1)
      = blit (XDirectoryInfo.encoded view m p k) (p + XDirectoryInfo.start view k)
          (64 + (XDirectoryInfo.entry view k).file_name_length)
          (XDirectoryInfo.entry view k).image := by
  show (XDirectoryInfo.entry view k).encode _ _ = _
  rw [XDirectoryInfo_encode_eq_blit]

/-- Bytes outside every encoded entry are not touched. -/
theorem encoded_frame (view : SrcView) (m : Mem) (p a : Nat) :
    ∀ cnt, ¬ XDirectoryInfo.Covered view p cnt a → XDirectoryInfo.encoded view m p cnt a = m a := by
  intro cnt
  induction cnt with
  | zero =>
    intro _
    rfl
  | succ cnt ih =>
    intro hc
    have hprev : ¬ XDirectoryInfo.Covered view p cnt a := by
      rintro ⟨k, hk, h1, h2⟩
      exact hc ⟨k, by omega, h1, h2⟩
    have hout : a < p + XDirectoryInfo.start view cnt ∨
        p + XDirectoryInfo.start view cnt + (64 + (XDirectoryInfo.entry view cnt).file_name_length)
          ≤ a := by
      by_contra hcon
      exact hc ⟨cnt, by omega, by omega, by omega⟩
    rw [encoded_succ, blit_out _ _ _ _ _ hout]
    exact ih hprev

/-- In a well-formed chain every byte of entry `k` survives the later entries. -/
theorem encoded_at (view : SrcView) (m : Mem) (p n : Nat)
    (hwf : XDirectoryInfo.WellFormed view n) (k : Nat) :
    ∀ cnt, k < cnt → cnt ≤ n + 1 → ∀ j, j < 64 + (XDirectoryInfo.entry view k).file_name_length →
      XDirectoryInfo.encoded view m p cnt (p + XDirectoryInfo.start view k + j)
        = (XDirectoryInfo.entry view k).image j := by
  intro cnt
  induction cnt with
  | zero =>
    intro hk
    omega
  | succ cnt ih =>
    intro hk hcnt j hj
    rw [encoded_succ]
    rcases Nat.lt_or_ge k cnt with hlt | hge
    · have hgap := start_gap view n hwf k cnt hlt (by omega)
      rw [blit_out _ _ _ _ _ (Or.inl (by omega))]
      exact ih hlt (by omega) j hj
    · have hkc : k = cnt := by omega
      subst hkc
      exact blit_at _ _ _ _ j hj

/-- Inside the encoded entries the result does not depend on the previous content. -/
theorem encoded_agree (view : SrcView) (m1 m2 : Mem) (p a : Nat) :
    ∀ cnt, XDirectoryInfo.Covered view p cnt a →
      XDirectoryInfo.encoded view m1 p cnt a = XDirectoryInfo.encoded view m2 p cnt a := by
  intro cnt
  induction cnt with
  | zero =>
    rintro ⟨k, hk, _, _⟩
    omega
  | succ cnt ih =>
    rintro ⟨k, hk, h1, h2⟩
    rw [encoded_succ, encoded_succ]
    by_cases hin : p + XDirectoryInfo.start view cnt ≤ a ∧
        a < p + XDirectoryInfo.start view cnt
          + (64 + (XDirectoryInfo.entry view cnt).file_name_length)
    · rw [blit_in _ _ _ _ _ hin.1 hin.2, blit_in _ _ _ _ _ hin.1 hin.2]
    · rw [blit_out _ _ _ _ _ (by omega), blit_out _ _ _ _ _ (by omega)]
      have hkc : k < cnt := by
        rcases Nat.lt_or_ge k cnt with hlt | hge
        · exact hlt
        · have hkc : k = cnt := by omega
          subst hkc
          omega
      exact ih ⟨k, hkc, h1, h2⟩

/-- In a well-formed chain, the bytes found at each field of entry `k` once at least
`k + 1` entries are encoded. -/
theorem encoded_bytes (view : SrcView) (m : Mem) (p n : Nat)
    (hwf : XDirectoryInfo.WellFormed view n) (k cnt : Nat) (hk : k < cnt) (hcnt : cnt ≤ n + 1) :
    (∀ i, i < 4 → XDirectoryInfo.encoded view m p cnt (p + XDirectoryInfo.start view k + i)
      = beByte 4 (XDirectoryInfo.entry view k).next_entry_offset i) ∧
    (∀ i, i < 4 → XDirectoryInfo.encoded view m p cnt (p + XDirectoryInfo.start view k + 4 + i)
      = beByte 4 (XDirectoryInfo.entry view k).file_index i) ∧
    (∀ i, i < 8 → XDirectoryInfo.encoded view m p cnt (p + XDirectoryInfo.start view k + 8 + i)
      = beByte 8 (XDirectoryInfo.entry view k).creation_time i) ∧
    (∀ i, i < 8 → XDirectoryInfo.encoded view m p cnt (p + XDirectoryInfo.start view k + 16 + i)
      = beByte 8 (XDirectoryInfo.entry view k).last_access_time i) ∧
    (∀ i, i < 8 → XDirectoryInfo.encoded view m p cnt (p + XDirectoryInfo.start view k + 24 + i)
      = beByte 8 (XDirectoryInfo.entry view k).last_write_time i) ∧
    (∀ i, i < 8 → XDirectoryInfo.encoded view m p cnt (p + XDirectoryInfo.start view k + 32 + i)
      = beByte 8 (XDirectoryInfo.entry view k).change_time i) ∧
    (∀ i, i < 8 → XDirectoryInfo.encoded view m p cnt (p + XDirectoryInfo.start view k + 40 + i)
      = beByte 8 (XDirectoryInfo.entry view k).end_of_file i) ∧
    (∀ i, i < 8 → XDirectoryInfo.encoded view m p cnt (p + XDirectoryInfo.start view k + 48 + i)
      = beByte 8 (XDirectoryInfo.entry view k).allocation_size i) ∧
    (∀ i, i < 4 → XDirectoryInfo.encoded view m p cnt (p + XDirectoryInfo.start view k + 56 + i)
      = beByte 4 (XDirectoryInfo.entry view k).attributes i) ∧
    (∀ i, i < 4 → XDirectoryInfo.encoded view m p cnt (p + XDirectoryInfo.start view k + 60 + i)
      = beByte 4 (XDirectoryInfo.entry view k).file_name_length i) ∧
    (∀ i, i < (XDirectoryInfo.entry view k).file_name_length →
      XDirectoryInfo.encoded view m p cnt (p + XDirectoryInfo.start view k + 64 + i)
        = (XDirectoryInfo.entry view k).file_name i) := by
  obtain ⟨f0, f1, f2, f3, f4, f5, f6, f7, f8, f9, f10⟩ :=
    XDirectoryInfo_image_fields (XDirectoryInfo.entry view k)
  have hat := encoded_at view m p n hwf k cnt hk hcnt
  refine ⟨?_, ?_, ?_, ?_, ?_, ?_, ?_, ?_, ?_, ?_, ?_⟩
  · intro i hi
    rw [hat i (by omega)]
    exact f0 i hi
  · intro i hi
    rw [Nat.add_assoc _ 4 i, hat (4 + i) (by omega)]
    exact f1 i hi
  · intro i hi
    rw [Nat.add_assoc _ 8 i, hat (8 + i) (by omega)]
    exact f2 i hi
  · intro i hi
    rw [Nat.add_assoc _ 16 i, hat (16 + i) (by omega)]
    exact f3 i hi
  · intro i hi
    rw [Nat.add_assoc _ 24 i, hat (24 + i) (by omega)]
    exact f4 i hi
  · intro i hi
    rw [Nat.add_assoc _ 32 i, hat (32 + i) (by omega)]
    exact f5 i hi
  · intro i hi
    rw [Nat.add_assoc _ 40 i, hat (40 + i) (by omega)]
    exact f6 i hi
  · intro i hi
    rw [Nat.add_assoc _ 48 i, hat (48 + i) (by omega)]
    exact f7 i hi
  · intro i hi
    rw [Nat.add_assoc _ 56 i, hat (56 + i) (by omega)]
    exact f8 i hi
  · intro i hi
    rw [Nat.add_assoc _ 60 i, hat (60 + i) (by omega)]
    exact f9 i hi
  · intro i hi
    rw [Nat.add_assoc _ 64 i, hat (64 + i) (by omega)]
    exact f10 i

/-- In a well-formed chain of in-range entries the reference reader finds, at the start
of entry `k`, the header fields of the source entry. -/
theorem encoded_header (view : SrcView) (m : Mem) (p n : Nat)
    (hwf : XDirectoryInfo.WellFormed view n) (k cnt : Nat) (hk : k < cnt) (hcnt : cnt ≤ n + 1)
    (hr : (XDirectoryInfo.entry view k).InRange) :
    rdBE32 (XDirectoryInfo.encoded view m p cnt) (p + XDirectoryInfo.start view k)
      = (XDirectoryInfo.entry view k).next_entry_offset ∧
    rdBE32 (XDirectoryInfo.encoded view m p cnt) (p + XDirectoryInfo.start view k + 4)
      = (XDirectoryInfo.entry view k).file_index ∧
    rdBE64 (XDirectoryInfo.encoded view m p cnt) (p + XDirectoryInfo.start view k + 8)
      = (XDirectoryInfo.entry view k).creation_time ∧
    rdBE64 (XDirectoryInfo.encoded view m p cnt) (p + XDirectoryInfo.start view k + 16)
      = (XDirectoryInfo.entry view k).last_access_time ∧
    rdBE64 (XDirectoryInfo.encoded view m p cnt) (p + XDirectoryInfo.start view k + 24)
      = (XDirectoryInfo.entry view k).last_write_time ∧
    rdBE64 (XDirectoryInfo.encoded view m p cnt) (p + XDirectoryInfo.start view k + 32)
      = (XDirectoryInfo.entry view k).change_time ∧
    rdBE64 (XDirectoryInfo.encoded view m p cnt) (p + XDirectoryInfo.start view k + 40)
      = (XDirectoryInfo.entry view k).end_of_file ∧
    rdBE64 (XDirectoryInfo.encoded view m p cnt) (p + XDirectoryInfo.start view k + 48)
      = (XDirectoryInfo.entry view k).allocation_size ∧
    rdBE32 (XDirectoryInfo.encoded view m p cnt) (p + XDirectoryInfo.start view k + 56)
      = (XDirectoryInfo.entry view k).attributes ∧
    rdBE32 (XDirectoryInfo.encoded view m p cnt) (p + XDirectoryInfo.start view k + 60)
      = (XDirectoryInfo.entry view k).file_name_length := by
  obtain ⟨b0, b1, b2, b3, b4, b5, b6, b7, b8, b9, _⟩ := encoded_bytes view m p n hwf k cnt hk hcnt
  obtain ⟨r0, r1, r2, r3, r4, r5, r6, r7, r8, r9⟩ := hr
  refine ⟨?_, ?_, ?_, ?_, ?_, ?_, ?_, ?_, ?_, ?_⟩
  · rw [rdBE32_field _ _ _ b0, Nat.mod_eq_of_lt r0]
  · rw [rdBE32_field _ _ _ b1, Nat.mod_eq_of_lt r1]
  · rw [rdBE64_field _ _ _ b2, Nat.mod_eq_of_lt r2]
  · rw [rdBE64_field _ _ _ b3, Nat.mod_eq_of_lt r3]
  · rw [rdBE64_field _ _ _ b4, Nat.mod_eq_of_lt r4]
  · rw [rdBE64_field _ _ _ b5, Nat.mod_eq_of_lt r5]
  · rw [rdBE64_field _ _ _ b6, Nat.mod_eq_of_lt r6]
  · rw [rdBE64_field _ _ _ b7, Nat.mod_eq_of_lt r7]
  · rw [rdBE32_field _ _ _ b8, Nat.mod_eq_of_lt r8]
  · rw [rdBE32_field _ _ _ b9, Nat.mod_eq_of_lt r9]

/-- The reference reader decodes entry `k` of the encoded chain as the source entry. -/
theorem encoded_readEntry (view : SrcView) (m : Mem) (p n : Nat)
    (hwf : XDirectoryInfo.WellFormed view n) (k cnt : Nat) (hk : k < cnt) (hcnt : cnt ≤ n + 1)
    (hr : (XDirectoryInfo.entry view k).InRange) :
    readEntry (XDirectoryInfo.encoded view m p cnt) (p + XDirectoryInfo.start view k)
      = (XDirectoryInfo.entry view k).toEntry := by
  obtain ⟨h0, h1, h2, h3, h4, h5, h6, h7, h8, h9⟩ :=
    encoded_header view m p n hwf k cnt hk hcnt hr
  have hname := (encoded_bytes view m p n hwf k cnt hk hcnt).2.2.2.2.2.2.2.2.2.2
  unfold readEntry XDirectoryInfo.toEntry
  rw [h0, h1, h2, h3, h4, h5, h6, h7, h8, h9]
  congr 1
  apply List.map_congr_left
  intro i hi
  exact hname i (List.mem_range.mp hi)

/-- The reference chain reader, started at entry `k` of an encoded well-formed chain,
returns the source entries `k .. n`. -/
theorem readChain_run (view : SrcView) (m : Mem) (p n : Nat)
    (hwf : XDirectoryInfo.WellFormed view n)
    (hr : ∀ k, k ≤ n → (XDirectoryInfo.entry view k).InRange) (extra : Nat) :
    ∀ j k, k + j = n →
      readChain (XDirectoryInfo.encoded view m p (n + 1)) (j + 1 + extra)
        (p + XDirectoryInfo.start view k)
        = some ((List.range' k (j + 1)).map (fun i => (XDirectoryInfo.entry view i).toEntry)) := by
  intro j
  induction j with
  | zero =>
    intro k hk
    have hkn : k = n := by omega
    subst hkn
    have he := encoded_readEntry view m p k hwf k (k + 1) (by omega) (by omega) (hr k (by omega))
    have hz : (XDirectoryInfo.entry view k).toEntry.next_entry_offset = 0 := hwf.2
    rw [Nat.zero_add, Nat.add_comm 1 extra]
    simp only [readChain, he, hz, if_true, List.range', List.map]
  | succ j ih =>
    intro k hk
    have he := encoded_readEntry view m p n hwf k (n + 1) (by omega) (by omega) (hr k (by omega))
    have hnz : (XDirectoryInfo.entry view k).toEntry.next_entry_offset ≠ 0 :=
      (WellFormed_EndsAt view n hwf).1 k (by omega)
    have hfuel : j + 1 + 1 + extra = (j + 1 + extra) + 1 := by omega
    have hnext : p + XDirectoryInfo.start view k
        + (XDirectoryInfo.entry view k).toEntry.next_entry_offset
        = p + XDirectoryInfo.start view (k + 1) := by
      rw [start_succ, Nat.add_assoc]
      rfl
    rw [hfuel]
    simp only [readChain, he, hnz, if_false, hnext]
    rw [ih (k + 1) (by omega)]
    rfl

/-! ## `XFileInfo::Write`: layout, frame and read-back -/

/-- The bytes of each field after `XFileInfo::Write`, and the untouched rest. -/
theorem XFileInfo_Write_bytes (x : XFileInfo) (m : Mem) (p : Nat) :
    (∀ k, k < 8 → x.Write m p (p + k) = beByte 8 x.creation_time k) ∧
    (∀ k, k < 8 → x.Write m p (p + 8 + k) = beByte 8 x.last_access_time k) ∧
    (∀ k, k < 8 → x.Write m p (p + 16 + k) = beByte 8 x.last_write_time k) ∧
    (∀ k, k < 8 → x.Write m p (p + 24 + k) = beByte 8 x.change_time k) ∧
    (∀ k, k < 8 → x.Write m p (p + 32 + k) = beByte 8 x.allocation_size k) ∧
    (∀ k, k < 8 → x.Write m p (p + 40 + k) = beByte 8 x.file_length k) ∧
    (∀ k, k < 4 → x.Write m p (p + 48 + k) = beByte 4 x.attributes k) ∧
    (∀ k, k < 4 → x.Write m p (p + 52 + k) = 0) := by
  obtain ⟨f0, f1, f2, f3, f4, f5, f6, f7⟩ := XFileInfo_image_fields x
  rw [XFileInfo_Write_eq_blit]
  refine ⟨?_, ?_, ?_, ?_, ?_, ?_, ?_, ?_⟩
  · intro k hk
    rw [blit_at m p 56 _ k (by omega)]
    exact f0 k hk
  · intro k hk
    rw [Nat.add_assoc, blit_at m p 56 _ (8 + k) (by omega)]
    exact f1 k hk
  · intro k hk
    rw [Nat.add_assoc, blit_at m p 56 _ (16 + k) (by omega)]
    exact f2 k hk
  · intro k hk
    rw [Nat.add_assoc, blit_at m p 56 _ (24 + k) (by omega)]
    exact f3 k hk
  · intro k hk
    rw [Nat.add_assoc, blit_at m p 56 _ (32 + k) (by omega)]
    exact f4 k hk
  · intro k hk
    rw [Nat.add_assoc, blit_at m p 56 _ (40 + k) (by omega)]
    exact f5 k hk
  · intro k hk
    rw [Nat.add_assoc, blit_at m p 56 _ (48 + k) (by omega)]
    exact f6 k hk
  · intro k hk
    rw [Nat.add_assoc, blit_at m p 56 _ (52 + k) (by omega)]
    exact f7 k hk

/-- Bytes outside `[p, p + 56)` are not touched by `XFileInfo::Write`. -/
theorem XFileInfo_Write_frame (x : XFileInfo) (m : Mem) (p a : Nat)
    (h : a < p ∨ p + 56 ≤ a) : x.Write m p a = m a := by
  rw [XFileInfo_Write_eq_blit]
  exact blit_out m p 56 _ a h

/-- C1. Round trip of `XFileInfo::Write`: for every record whose fields fit their machine
widths (0 and the maxima `2^64 - 1`, `2^32 - 1` included), every buffer and every offset
`p`, the reference big-endian reader applied to the written buffer at `p+0`, `p+8`,
`p+16`, `p+24`, `p+32`, `p+40` (8 bytes) and `p+48` (4 bytes) returns exactly
`creation_time`, `last_access_time`, `last_write_time`, `change_time`,
`allocation_size`, `file_length` and `attributes`. -/
theorem C1_XFileInfo_Write_roundtrip (x : XFileInfo) (base : Mem) (p : Nat)
    (hx : x.InRange) :
    rdBE64 (x.Write base p) p = x.creation_time ∧
    rdBE64 (x.Write base p) (p + 8) = x.last_access_time ∧
    rdBE64 (x.Write base p) (p + 16) = x.last_write_time ∧
    rdBE64 (x.Write base p) (p + 24) = x.change_time ∧
    rdBE64 (x.Write base p) (p + 32) = x.allocation_size ∧
    rdBE64 (x.Write base p) (p + 40) = x.file_length ∧
    rdBE32 (x.Write base p) (p + 48) = x.attributes := by
  obtain ⟨h1, h2, h3, h4, h5, h6, h7⟩ := hx
  obtain ⟨b0, b1, b2, b3, b4, b5, b6, _⟩ := XFileInfo_Write_bytes x base p
  refine ⟨?_, ?_, ?_, ?_, ?_, ?_, ?_⟩
  · rw [rdBE64_field _ _ _ b0, Nat.mod_eq_of_lt h1]
  · rw [rdBE64_field _ _ _ b1, Nat.mod_eq_of_lt h2]
  · rw [rdBE64_field _ _ _ b2, Nat.mod_eq_of_lt h3]
  · rw [rdBE64_field _ _ _ b3, Nat.mod_eq_of_lt h4]
  · rw [rdBE64_field _ _ _ b4, Nat.mod_eq_of_lt h5]
  · rw [rdBE64_field _ _ _ b5, Nat.mod_eq_of_lt h6]
  · rw [rdBE32_field _ _ _ b6, Nat.mod_eq_of_lt h7]

/-- C2. Layout and frame of `XFileInfo::Write`: for every record, buffer and offset `p`,
the written buffer holds each field most-significant byte first at the offsets 0, 8,
16, 24, 32, 40 (8 bytes each) and 48 (4 bytes), the four pad bytes at `p+52 .. p+55`
are zero, and every byte outside `[p, p + 56)` is the byte the buffer held before. -/
theorem C2_XFileInfo_Write_layout (x : XFileInfo) (base : Mem) (p : Nat) :
    ((∀ k, k < 8 → x.Write base p (p + k) = beByte 8 x.creation_time k) ∧
     (∀ k, k < 8 → x.Write base p (p + 8 + k) = beByte 8 x.last_access_time k) ∧
     (∀ k, k < 8 → x.Write base p (p + 16 + k) = beByte 8 x.last_write_time k) ∧
     (∀ k, k < 8 → x.Write base p (p + 24 + k) = beByte 8 x.change_time k) ∧
     (∀ k, k < 8 → x.Write base p (p + 32 + k) = beByte 8 x.allocation_size k) ∧
     (∀ k, k < 8 → x.Write base p (p + 40 + k) = beByte 8 x.file_length k) ∧
     (∀ k, k < 4 → x.Write base p (p + 48 + k) = beByte 4 x.attributes k) ∧
     (∀ k, k < 4 → x.Write base p (p + 52 + k) = 0)) ∧
    (∀ a, a < p ∨ p + 56 ≤ a → x.Write base p a = base a) :=
  ⟨XFileInfo_Write_bytes x base p, fun a h => XFileInfo_Write_frame x base p a h⟩

/-! ## `XDirectoryInfo::Write`: chain layout, termination, frame -/

/-- C4. Layout of `XDirectoryInfo::Write` on a well-formed chain of `n + 1` entries whose
header fields fit their machine widths: the call returns (any fuel above `n`); entry `k`
starts at `p + start k`, where `start k` is the sum of the `next_entry_offset` values of
the entries before it; at that start the reference big-endian reader finds
`next_entry_offset` at +0, `file_index` at +4, `creation_time` at +8, `last_access_time`
at +16, `last_write_time` at +24, `change_time` at +32, `end_of_file` at +40,
`allocation_size` at +48, `attributes` at +56, `file_name_length` at +60, and the
`file_name_length` name bytes at +64; the bytes after a name up to the next entry (all
bytes after the last name) keep their old value, so no terminator is written; and the
chain reader that follows `next_entry_offset` from `p` until it reads 0 returns the source
entries `0 .. n` in order. -/
theorem C4_XDirectoryInfo_Write_chain_layout (view : SrcView) (base : Mem) (p n : Nat)
    (hwf : XDirectoryInfo.WellFormed view n)
    (hr : ∀ k, k ≤ n → (XDirectoryInfo.entry view k).InRange) :
    ∃ m', (∀ fuel, n < fuel → XDirectoryInfo.Write view fuel base p = some m') ∧
      (∀ k, k ≤ n →
        rdBE32 m' (p + XDirectoryInfo.start view k)
          = (XDirectoryInfo.entry view k).next_entry_offset ∧
        rdBE32 m' (p + XDirectoryInfo.start view k + 4)
          = (XDirectoryInfo.entry view k).file_index ∧
        rdBE64 m' (p + XDirectoryInfo.start view k + 8)
          = (XDirectoryInfo.entry view k).creation_time ∧
        rdBE64 m' (p + XDirectoryInfo.start view k + 16)
          = (XDirectoryInfo.entry view k).last_access_time ∧
        rdBE64 m' (p + XDirectoryInfo.start view k + 24)
          = (XDirectoryInfo.entry view k).last_write_time ∧
        rdBE64 m' (p + XDirectoryInfo.start view k + 32)
          = (XDirectoryInfo.entry view k).change_time ∧
        rdBE64 m' (p + XDirectoryInfo.start view k + 40)
          = (XDirectoryInfo.entry view k).end_of_file ∧
        rdBE64 m' (p + XDirectoryInfo.start view k + 48)
          = (XDirectoryInfo.entry view k).allocation_size ∧
        rdBE32 m' (p + XDirectoryInfo.start view k + 56)
          = (XDirectoryInfo.entry view k).attributes ∧
        rdBE32 m' (p + XDirectoryInfo.start view k + 60)
          = (XDirectoryInfo.entry view k).file_name_length ∧
        (∀ i, i < (XDirectoryInfo.entry view k).file_name_length →
          m' (p + XDirectoryInfo.start view k + 64 + i)
            = (XDirectoryInfo.entry view k).file_name i)) ∧
      (∀ k, k ≤ n → ∀ a,
        p + XDirectoryInfo.start view k + 64 + (XDirectoryInfo.entry view k).file_name_length ≤ a →
        (k < n → a < p + XDirectoryInfo.start view (k + 1)) → m' a = base a) ∧
      readChain m' (n + 1) p
        = some ((List.range (n + 1)).map (fun k => (XDirectoryInfo.entry view k).toEntry)) := by
  have hend := WellFormed_EndsAt view n hwf
  refine ⟨XDirectoryInfo.encoded view base p (n + 1),
    fun fuel hf => Write_eq_encoded view base p n fuel hend hf, ?_, ?_, ?_⟩
  · intro k hk
    obtain ⟨h0, h1, h2, h3, h4, h5, h6, h7, h8, h9⟩ :=
      encoded_header view base p n hwf k (n + 1) (by omega) (Nat.le_refl _) (hr k hk)
    exact ⟨h0, h1, h2, h3, h4, h5, h6, h7, h8, h9,
      (encoded_bytes view base p n hwf k (n + 1) (by omega) (Nat.le_refl _)).2.2.2.2.2.2.2.2.2.2⟩
  · intro k hk a ha hnext
    apply encoded_frame
    rintro ⟨k', hk', h1, h2⟩
    rcases Nat.lt_trichotomy k' k with hlt | heq | hgt
    · have := start_gap view n hwf k' k hlt hk
      omega
    · subst heq
      omega
    · have h3 := hnext (by omega)
      have h4 := start_mono view (k + 1) k' (by omega)
      omega
  · have h := readChain_run view base p n hwf hr 0 n 0 (by omega)
    rw [Nat.add_zero] at h
    rw [List.range_eq_range']
    exact h

/-- C4 at the three-entry sample chain written at offset 1 of a filled buffer. -/
theorem C4_XDirectoryInfo_Write_chain_layout_witness :
    XDirectoryInfo.WellFormed sampleView 2 ∧
    (∀ k, k ≤ 2 → (XDirectoryInfo.entry sampleView k).InRange) ∧
    ∃ m', XDirectoryInfo.Write sampleView 3 fillMem 1 = some m' ∧
      readChain m' 3 1
        = some ((List.range 3).map (fun k => (XDirectoryInfo.entry sampleView k).toEntry)) :=
  ⟨by decide, by decide,
    (C4_XDirectoryInfo_Write_chain_layout sampleView fillMem 1 2 (by decide) (by decide)).imp
      (fun _ h => ⟨h.1 3 (by decide), h.2.2.2⟩)⟩

/-- C9. Termination of `XDirectoryInfo::Write`: when entry `n` is the first entry of the
source chain with `next_entry_offset = 0`, the loop exits after exactly `n + 1` passes
(any fuel above `n` gives a result, no smaller fuel does), and the result is the buffer
with exactly the entries `0 .. n` encoded, in order, and none after them; a chain whose
first entry has `next_entry_offset = 0` is encoded by exactly one pass of the body; and
every byte outside the ranges `[start_k, start_k + 64 + file_name_length_k)` of the
encoded entries keeps its old value. -/
theorem C9_XDirectoryInfo_Write_terminates (view : SrcView) (base : Mem) (p n : Nat)
    (hend : XDirectoryInfo.EndsAt view n) :
    ∃ m', (∀ fuel, n < fuel → XDirectoryInfo.Write view fuel base p = some m') ∧
      (∀ fuel, fuel ≤ n → XDirectoryInfo.Write view fuel base p = none) ∧
      m' = XDirectoryInfo.encoded view base p (n + 1) ∧
      (n = 0 → m' = (view 0).encode base p) ∧
      (∀ a, ¬ XDirectoryInfo.Covered view p (n + 1) a → m' a = base a) := by
  refine ⟨XDirectoryInfo.encoded view base p (n + 1),
    fun fuel hf => Write_eq_encoded view base p n fuel hend hf, ?_, rfl, ?_, ?_⟩
  · intro fuel hf
    exact WriteLoop_short view base p n hend fuel 0 (by omega)
  · intro hn
    subst hn
    rfl
  · intro a ha
    exact encoded_frame view base p a (n + 1) ha

/-- C9 at the three-entry sample chain (three passes, not fewer) and at a single entry
with `next_entry_offset = 0` (one pass of the body). -/
theorem C9_XDirectoryInfo_Write_terminates_witness :
    XDirectoryInfo.EndsAt sampleView 2 ∧ XDirectoryInfo.EndsAt singleView 0 ∧
    (∃ m', XDirectoryInfo.Write sampleView 3 fillMem 1 = some m' ∧
      XDirectoryInfo.Write sampleView 2 fillMem 1 = none ∧ m' 0 = 238) ∧
    (∃ m', XDirectoryInfo.Write singleView 1 fillMem 1 = some m' ∧
      m' = (singleView 0).encode fillMem 1) :=
  ⟨by decide, by decide,
    (C9_XDirectoryInfo_Write_terminates sampleView fillMem 1 2 (by decide)).imp
      (fun _ h => ⟨h.1 3 (by decide), h.2.1 2 (by decide),
        h.2.2.2.2 0 (by rintro ⟨k, _, h1, _⟩; omega)⟩),
    (C9_XDirectoryInfo_Write_terminates singleView fillMem 1 0 (by decide)).imp
      (fun _ h => ⟨h.1 1 (by decide), h.2.2.2.1 rfl⟩)⟩

/-- C3 (as stated, refuted). The sample chain is well formed and in range, yet the
`next_entry_offset` values read back from its encoding at the three entry starts are
72, 68, 0: they do not strictly increase.  And for the two-entry chain whose first
entry has `next_entry_offset = 64` under a 5-byte name (the name 0, 0, 0, 0, 3 being the
bytes of the second header in host memory), the loop makes two passes, the recorded
`file_name_length` reads back as 5, and the five bytes at +64 of the first encoded entry
are 0, 0, 0, 0, 0, the start of the second header in big-endian order: the fifth byte is
not the name's. -/
theorem C3_offsets_not_increasing :
    XDirectoryInfo.WellFormed sampleView 2 ∧
    (∀ k, k ≤ 2 → (XDirectoryInfo.entry sampleView k).InRange) ∧
    (XDirectoryInfo.Write sampleView 3 zeroMem 0).map
        (fun m' => [rdBE32 m' 0, rdBE32 m' 72, rdBE32 m' 140]) = some [72, 68, 0] ∧
    ((XDirectoryInfo.Write sampleView 3 zeroMem 0).bind (fun m' => readChain m' 3 0)).map
        (List.map DirEntry.next_entry_offset) = some [72, 68, 0] ∧
    ¬ OffsetsIncreaseThenZero [72, 68, 0] ∧
    XDirectoryInfo.EndsAt overlapView 1 ∧
    (XDirectoryInfo.entry overlapView 0).toEntry.file_name = [0, 0, 0, 0, 3] ∧
    (XDirectoryInfo.Write overlapView 2 zeroMem 0).map
        (fun m' => (rdBE32 m' 60, [m' 64, m' 65, m' 66, m' 67, m' 68]))
      = some (5, [0, 0, 0, 0, 0]) := by
  refine ⟨by decide, by decide, by decide, by decide, by decide, by decide, by decide,
    by decide⟩

/-- C3 (amended). For a well-formed chain of `n + 1` in-range entries encoded by
`XDirectoryInfo::Write`: the `next_entry_offset` values read back at the entry starts
are the source's own relative offsets, non-zero for every entry but the last and 0 for
the last (exactly one 0, at the end); the entry starts `p + start k` strictly increase;
and each entry's `file_name_length` field reads back as recorded, with exactly that
many name bytes of the entry stored at +64. -/
theorem C3_chain_offsets_and_names (view : SrcView) (base : Mem) (p n : Nat)
    (hwf : XDirectoryInfo.WellFormed view n)
    (hr : ∀ k, k ≤ n → (XDirectoryInfo.entry view k).InRange) :
    ∃ m', (∀ fuel, n < fuel → XDirectoryInfo.Write view fuel base p = some m') ∧
      (∀ k, k ≤ n → rdBE32 m' (p + XDirectoryInfo.start view k)
        = (XDirectoryInfo.entry view k).next_entry_offset) ∧
      (∀ k, k < n → rdBE32 m' (p + XDirectoryInfo.start view k) ≠ 0) ∧
      rdBE32 m' (p + XDirectoryInfo.start view n) = 0 ∧
      (∀ j k, j < k → k ≤ n →
        p + XDirectoryInfo.start view j < p + XDirectoryInfo.start view k) ∧
      (∀ k, k ≤ n →
        rdBE32 m' (p + XDirectoryInfo.start view k + 60)
          = (XDirectoryInfo.entry view k).file_name_length ∧
        ∀ i, i < (XDirectoryInfo.entry view k).file_name_length →
          m' (p + XDirectoryInfo.start view k + 64 + i)
            = (XDirectoryInfo.entry view k).file_name i) := by
  have hend := WellFormed_EndsAt view n hwf
  have hdr := fun k (hk : k ≤ n) =>
    encoded_header view base p n hwf k (n + 1) (by omega) (Nat.le_refl _) (hr k hk)
  refine ⟨XDirectoryInfo.encoded view base p (n + 1),
    fun fuel hf => Write_eq_encoded view base p n fuel hend hf, ?_, ?_, ?_, ?_, ?_⟩
  · intro k hk
    exact (hdr k hk).1
  · intro k hk
    rw [(hdr k (by omega)).1]
    exact hend.1 k hk
  · rw [(hdr n (Nat.le_refl _)).1]
    exact hend.2
  · intro j k hjk hkn
    have := start_lt view n hend j k hjk hkn
    omega
  · intro k hk
    exact ⟨(hdr k hk).2.2.2.2.2.2.2.2.2,
      (encoded_bytes view base p n hwf k (n + 1) (by omega) (Nat.le_refl _)).2.2.2.2.2.2.2.2.2.2⟩

/-- C3 (amended) at the three-entry sample chain. -/
theorem C3_chain_offsets_and_names_witness :
    XDirectoryInfo.WellFormed sampleView 2 ∧
    (∀ k, k ≤ 2 → (XDirectoryInfo.entry sampleView k).InRange) ∧
    ∃ m', XDirectoryInfo.Write sampleView 3 fillMem 1 = some m' ∧
      rdBE32 m' (1 + XDirectoryInfo.start sampleView 2) = 0 :=
  ⟨by decide, by decide,
    (C3_chain_offsets_and_names sampleView fillMem 1 2 (by decide) (by decide)).imp
      (fun _ h => ⟨h.1 3 (by decide), h.2.2.2.1⟩)⟩

/-! ## Capacity and purity of the encoders -/

/-- C5 (as stated, refuted). With a destination region of capacity 4 at offset 0, the
56-byte file record and the sample chain both extend beyond the capacity, yet
`XFileInfo::Write` stores 255 at index 4 and `XDirectoryInfo::Write` stores 1 at index 7
of a buffer that held 0 there: bytes at indices `>= 4` are written. -/
theorem C5_writes_past_capacity :
    4 < 0 + 56 ∧ zeroMem 4 = 0 ∧ zeroMem 7 = 0 ∧
    sampleInfo.Write zeroMem 0 4 = 255 ∧
    (XDirectoryInfo.Write sampleView 3 zeroMem 0).map (fun m' => m' 7) = some 1 := by
  refine ⟨by decide, rfl, rfl, by decide, by decide⟩

/-- C5 (amended). The encoders take no capacity and have no failure result: whatever the
capacity `C` of the destination region, `XFileInfo::Write` stores the record's byte at
every index of `[p, p + 56)`, the indices `>= C` included, and `XDirectoryInfo::Write`
on a well-formed chain returns with every byte of every entry stored, the indices
`>= C` included. -/
theorem C5_Write_ignores_capacity :
    (∀ (x : XFileInfo) (base : Mem) (p C a : Nat), C ≤ a → p ≤ a → a < p + 56 →
      x.Write base p a = x.image (a - p)) ∧
    (∀ (view : SrcView) (base : Mem) (p n C : Nat), XDirectoryInfo.WellFormed view n →
      ∃ m', (∀ fuel, n < fuel → XDirectoryInfo.Write view fuel base p = some m') ∧
        ∀ k j, k ≤ n → j < 64 + (XDirectoryInfo.entry view k).file_name_length →
          C ≤ p + XDirectoryInfo.start view k + j →
          m' (p + XDirectoryInfo.start view k + j) = (XDirectoryInfo.entry view k).image j) := by
  constructor
  · intro x base p C a _ h1 h2
    rw [XFileInfo_Write_eq_blit]
    exact blit_in base p 56 _ a h1 h2
  · intro view base p n C hwf
    refine ⟨XDirectoryInfo.encoded view base p (n + 1),
      fun fuel hf => Write_eq_encoded view base p n fuel (WellFormed_EndsAt view n hwf) hf, ?_⟩
    intro k j hk hj _
    exact encoded_at view base p n hwf k (n + 1) (by omega) (Nat.le_refl _) j hj

/-- C5 (amended) at capacity 4: byte 55 of the file record and the last name byte of the
sample chain are stored. -/
theorem C5_Write_ignores_capacity_witness :
    XDirectoryInfo.WellFormed sampleView 2 ∧
    sampleInfo.Write fillMem 0 55 = sampleInfo.image (55 - 0) ∧
    ∃ m', XDirectoryInfo.Write sampleView 3 fillMem 0 = some m' ∧
      m' (0 + XDirectoryInfo.start sampleView 2 + 65) = (XDirectoryInfo.entry sampleView 2).image 65 :=
  ⟨by decide,
    C5_Write_ignores_capacity.1 sampleInfo fillMem 0 4 55 (by decide) (by decide) (by decide),
    (C5_Write_ignores_capacity.2 sampleView fillMem 0 2 4 (by decide)).imp
      (fun _ h => ⟨h.1 3 (by decide), h.2 2 65 (by decide) (by decide) (by decide)⟩)⟩

/-- C6. Encoding is pure: for every record and offset `p`, two runs of
`XFileInfo::Write` on buffers with any previous contents leave identical bytes in
`[p, p + 56)`, and these bytes are the record's image, a function of its fields alone;
two runs of `XDirectoryInfo::Write` on the same terminating chain at the same offset
both return and leave identical bytes at every index of the encoded entries. -/
theorem C6_Write_pure :
    (∀ (x : XFileInfo) (m1 m2 : Mem) (p a : Nat), p ≤ a → a < p + 56 →
      x.Write m1 p a = x.Write m2 p a ∧ x.Write m1 p a = x.image (a - p)) ∧
    (∀ (view : SrcView) (m1 m2 : Mem) (p n fuel a : Nat), XDirectoryInfo.EndsAt view n →
      n < fuel → XDirectoryInfo.Covered view p (n + 1) a →
      ∃ r1 r2, XDirectoryInfo.Write view fuel m1 p = some r1 ∧
        XDirectoryInfo.Write view fuel m2 p = some r2 ∧ r1 a = r2 a) := by
  constructor
  · intro x m1 m2 p a h1 h2
    rw [XFileInfo_Write_eq_blit, XFileInfo_Write_eq_blit, blit_in m1 p 56 _ a h1 h2,
      blit_in m2 p 56 _ a h1 h2]
    exact ⟨rfl, rfl⟩
  · intro view m1 m2 p n fuel a hend hf hc
    exact ⟨_, _, Write_eq_encoded view m1 p n fuel hend hf,
      Write_eq_encoded view m2 p n fuel hend hf, encoded_agree view m1 m2 p a (n + 1) hc⟩

/-- C6 at the samples: a zero buffer and a filled buffer end with the same bytes. -/
theorem C6_Write_pure_witness :
    XDirectoryInfo.EndsAt sampleView 2 ∧
    sampleInfo.Write zeroMem 3 10 = sampleInfo.Write fillMem 3 10 ∧
    ∃ r1 r2, XDirectoryInfo.Write sampleView 3 zeroMem 1 = some r1 ∧
      XDirectoryInfo.Write sampleView 3 fillMem 1 = some r2 ∧ r1 80 = r2 80 :=
  ⟨by decide,
    (C6_Write_pure.1 sampleInfo zeroMem fillMem 3 10 (by decide) (by decide)).1,
    C6_Write_pure.2 sampleView zeroMem fillMem 1 2 3 80 (by decide) (by decide)
      ⟨1, by decide, by decide, by decide⟩⟩

/-- C1 at the record holding 0 and the maxima of both widths. -/
theorem C1_XFileInfo_Write_roundtrip_witness :
    sampleInfo.InRange ∧
    rdBE64 (sampleInfo.Write fillMem 3) 3 = 18446744073709551615 ∧
    rdBE64 (sampleInfo.Write fillMem 3) (3 + 8) = 0 ∧
    rdBE32 (sampleInfo.Write fillMem 3) (3 + 48) = 4294967295 :=
  ⟨by decide,
    (C1_XFileInfo_Write_roundtrip sampleInfo fillMem 3 (by decide)).1,
    (C1_XFileInfo_Write_roundtrip sampleInfo fillMem 3 (by decide)).2.1,
    (C1_XFileInfo_Write_roundtrip sampleInfo fillMem 3 (by decide)).2.2.2.2.2.2⟩

/-! ## `XFile`: position cursor and synchronous read -/

/-- C8. The position cursor is settable and per handle: for every handle state and value
`v`, `position()` after `set_position(v)` returns `v`; `set_position` changes neither the
desired access, nor the async event, nor the base-object state of that handle; and among
the live handles a `set_position` on one handle leaves every other handle, its position
included, as it was. -/
theorem C8_set_position_per_handle {β : Type} (f : XFile β) (v : Nat) (hs : Handles β)
    (h1 h2 : Nat) :
    (f.set_position v).position = v ∧
    (f.set_position v).desired_access_ = f.desired_access_ ∧
    (f.set_position v).async_event_ = f.async_event_ ∧
    (f.set_position v).xobject = f.xobject ∧
    ((hs.set_position h1 v) h1).position = v ∧
    (h1 ≠ h2 → (hs.set_position h1 v) h2 = hs h2 ∧
      ((hs.set_position h1 v) h2).position = (hs h2).position) := by
  refine ⟨rfl, rfl, rfl, rfl, ?_, ?_⟩
  · simp [Handles.set_position, XFile.set_position, XFile.position]
  · intro hne
    have h : (hs.set_position h1 v) h2 = hs h2 := by
      unfold Handles.set_position
      rw [if_neg (fun h => hne h.symm)]
    exact ⟨h, by rw [h]⟩

/-- C8 at two sample handles: setting handle 0 to 42 leaves handle 1 at 100. -/
theorem C8_set_position_per_handle_witness :
    (0 : Nat) ≠ 1 ∧ ((sampleHandles.set_position 0 42) 0).position = 42 ∧
    ((sampleHandles.set_position 0 42) 1).position = 100 :=
  ⟨by decide,
    (C8_set_position_per_handle sampleFile 42 sampleHandles 0 1).2.2.2.2.1,
    ((C8_set_position_per_handle sampleFile 42 sampleHandles 0 1).2.2.2.2.2 (by decide)).2⟩

/-- C7. Boundary of the synchronous read, for every handle with read access and every
file: a 16-byte read at `byte_offset = L` (the file length) succeeds with 0 bytes, one at
`L + 1` fails with InvalidOffset; every read at `byte_offset > L` fails with
InvalidOffset, and every read at `byte_offset <= L` whose transfer succeeds returns
`min length (L - byte_offset)` bytes, the file bytes from `byte_offset` on. -/
theorem C7_Read_boundary {β : Type} (f : XFile β) (grants_read : Nat → Bool)
    (file : List Nat) (transfer_ok : Bool) (hacc : grants_read f.desired_access_ = true) :
    f.Read grants_read file transfer_ok 16 file.length = .ok [] ∧
    f.Read grants_read file transfer_ok 16 (file.length + 1) = .error .InvalidOffset ∧
    (∀ len off, file.length < off →
      f.Read grants_read file transfer_ok len off = .error .InvalidOffset) ∧
    (∀ len off, off ≤ file.length →
      ∃ bytes, f.Read grants_read file true len off = .ok bytes ∧
        bytes.length = min len (file.length - off) ∧
        bytes = (file.drop off).take len) := by
  refine ⟨?_, ?_, ?_, ?_⟩
  · simp [XFile.Read, hacc]
  · simp [XFile.Read, hacc]
  · intro len off hoff
    simp [XFile.Read, hacc, hoff]
  · intro len off hoff
    have hlen : ((file.drop off).take len).length = min len (file.length - off) := by
      rw [List.length_take, List.length_drop]
    by_cases hz : min len (file.length - off) = 0
    · have hnil : (file.drop off).take len = [] := by
        apply List.eq_nil_of_length_eq_zero
        rw [hlen, hz]
      refine ⟨[], ?_, ?_, hnil.symm⟩
      · unfold XFile.Read
        rw [if_neg (by simp [hacc]), if_neg (by omega), if_pos hz]
      · rw [hz]
        rfl
    · refine ⟨(file.drop off).take len, ?_, hlen, rfl⟩
      unfold XFile.Read
      rw [if_neg (by simp [hacc]), if_neg (by omega), if_neg hz, if_neg (by simp)]

/-- C7 at the 10-byte sample file: reads at offsets 10, 11 and 5. -/
theorem C7_Read_boundary_witness :
    sampleFile.Read (fun a => a % 2 == 1) sampleBytes true 16 10 = .ok [] ∧
    sampleFile.Read (fun a => a % 2 == 1) sampleBytes true 16 11 = .error .InvalidOffset ∧
    ∃ bytes, sampleFile.Read (fun a => a % 2 == 1) sampleBytes true 16 5 = .ok bytes ∧
      bytes.length = 5 ∧ bytes = [5, 6, 7, 8, 9] :=
  ⟨(C7_Read_boundary sampleFile (fun a => a % 2 == 1) sampleBytes true (by decide)).1,
    (C7_Read_boundary sampleFile (fun a => a % 2 == 1) sampleBytes true (by decide)).2.1,
    (C7_Read_boundary sampleFile (fun a => a % 2 == 1) sampleBytes true (by decide)).2.2.2
      16 5 (by decide)⟩

/-! ## `Clock::QueryHostUptimeMillis` -/

theorem toUInt64_natCast (r : Nat) (h : r < 2 ^ 64) : toUInt64 (r : Int) = r := by
  unfold toUInt64
  omega

theorem toUInt64_cast (x : Int) : ((toUInt64 x : Nat) : Int) = x % 2 ^ 64 :=
  Int.toNat_of_nonneg (Int.emod_nonneg _ (by norm_num))

/-- The 64-bit sum in `QueryHostTickCount` is `tv_sec * 10^9 + tv_nsec` modulo `2^64`. -/
theorem QueryHostTickCount_eq (tr : timespec) :
    Clock.QueryHostTickCount tr
      = ((tr.tv_sec * 1000000000 + tr.tv_nsec) % 2 ^ 64).toNat := by
  have hc : ((((tr.tv_sec * 1000000000 + tr.tv_nsec) % 2 ^ 64).toNat : Nat) : Int)
      = (tr.tv_sec * 1000000000 + tr.tv_nsec) % 2 ^ 64 :=
    Int.toNat_of_nonneg (Int.emod_nonneg _ (by norm_num))
  have hmul : (tr.tv_sec % 2 ^ 64 * 1000000000) % 2 ^ 64
      = (tr.tv_sec * 1000000000) % 2 ^ 64 := by
    rw [Int.mul_emod, Int.emod_emod, ← Int.mul_emod]
  have h2 : (2 : Int) ^ 64 = 18446744073709551616 := by norm_num
  apply Int.ofNat_inj.mp
  rw [hc]
  unfold Clock.QueryHostTickCount
  push_cast
  rw [toUInt64_cast, toUInt64_cast]
  rw [h2] at hmul
  rw [h2, hmul, Int.add_emod_emod, Int.emod_add_emod, Int.add_comm]

/-- C10. The function `Clock::QueryHostUptimeMillis` with clock resolution `r` ns
(`clock_getres` gives `tv_sec = 0`, `tv_nsec = r`), for `1 <= r <= 1000000`: the divisor
`(1000000000 / r) / 1000` is non-zero, so the call has a result, and the result is
`tick_count / ((1000000000 / r) / 1000)` reduced modulo `2^32`, where `tick_count` is
`tv_sec * 1000000000 + tv_nsec` modulo `2^64`; for `r = 1` it is the elapsed nanoseconds
divided by 1000000, modulo `2^32`. -/
theorem C10_QueryHostUptimeMillis (r : Nat) (tr : timespec) (h1 : 1 ≤ r)
    (h2 : r ≤ 1000000) :
    (1000000000 / r) / 1000 ≠ 0 ∧
    Clock.host_tick_frequency ⟨0, r⟩ = some (1000000000 / r) ∧
    Clock.QueryHostUptimeMillis ⟨0, r⟩ tr
      = some (Clock.QueryHostTickCount tr / ((1000000000 / r) / 1000) % 2 ^ 32) ∧
    Clock.QueryHostTickCount tr
      = ((tr.tv_sec * 1000000000 + tr.tv_nsec) % 2 ^ 64).toNat ∧
    Clock.QueryHostUptimeMillis ⟨0, 1⟩ tr
      = some (((tr.tv_sec * 1000000000 + tr.tv_nsec) % 2 ^ 64).toNat / 1000000 % 2 ^ 32) := by
  have hr : toUInt64 (r : Int) = r := toUInt64_natCast r (by omega)
  have hdiv : (1000000000 / r) / 1000 ≠ 0 := by
    have h3 : 1000 ≤ 1000000000 / r := by
      rw [Nat.le_div_iff_mul_le (by omega)]
      nlinarith
    have h4 : 1 ≤ 1000000000 / r / 1000 := by
      rw [Nat.le_div_iff_mul_le (by omega)]
      omega
    omega
  have hfreq : Clock.host_tick_frequency ⟨0, r⟩ = some (1000000000 / r) := by
    unfold Clock.host_tick_frequency
    simp only [ne_eq, not_true_eq_false, if_false, hr]
    rw [if_neg (by omega)]
  have hone : toUInt64 ((1 : Nat) : Int) = 1 := toUInt64_natCast 1 (by omega)
  refine ⟨hdiv, hfreq, ?_, QueryHostTickCount_eq tr, ?_⟩
  · unfold Clock.QueryHostUptimeMillis
    rw [hfreq]
    simp only [hdiv, if_false]
  · rw [← QueryHostTickCount_eq]
    unfold Clock.QueryHostUptimeMillis Clock.host_tick_frequency
    simp only [ne_eq, not_true_eq_false, if_false]
    have h1' : toUInt64 (1 : Int) = 1 := hone
    simp [h1']

/-- C10 at resolutions 1 ns and 1000000 ns, 5000 s and 123456789 ns after boot. -/
theorem C10_QueryHostUptimeMillis_witness :
    Clock.QueryHostUptimeMillis ⟨0, 1⟩ ⟨5000, 123456789⟩ = some 5000123 ∧
    (1000000000 / 1000000) / 1000 ≠ 0 :=
  ⟨(C10_QueryHostUptimeMillis 1 ⟨5000, 123456789⟩ (by decide) (by decide)).2.2.1,
    (C10_QueryHostUptimeMillis 1000000 ⟨5000, 123456789⟩ (by decide) (by decide)).1⟩

end xe
